import Mathlib

/-!
# Server instruction generation

A shallow embedding of `pkg/github/instructions.go`: the two functions
`GenerateInstructions` and `getToolsetInstructions`, together with the three
library calls they make (`os.Getenv`, `slices.Contains`, `strings.Join`).

Two further embeddings of `GenerateInstructions` follow the first: one in
state-passing form over the process environment, and one with an error value,
in which `strings.Join` carries its output-length checks.

Go strings are modelled by Lean `String`s.  All text that can reach the output
is one of six fixed, valid UTF-8 literals, and identifiers of the input are only
ever compared for equality with fixed literals.
-/

namespace Github

/-! ## Library calls -/

/-- Process environment: the value bound to each variable name, if any. -/
abbrev Env := String → Option String

/-- Go `os.Getenv`: the value of the variable `key`, or the empty string when
the variable is not set. -/
def Getenv (env : Env) (key : String) : String :=
  match env key with
  | some v => v
  | none => ""

/-- Go `slices.Contains`: whether `v` is an element of `s`. -/
def Contains (s : List String) (v : String) : Bool :=
  match s with
  | [] => false
  | x :: rest => if x == v then true else Contains rest v

/-- Go `strings.Join`: no element gives `""`, one element gives that element,
otherwise the first element is written and then, for every further element,
the separator followed by the element. -/
def Join (elems : List String) (sep : String) : String :=
  match elems with
  | [] => ""
  | [e] => e
  | e :: rest => rest.foldl (fun b s => (b ++ sep) ++ s) e

/-! ## Fixed texts -/

/-- The literal appended when the `context` toolset is enabled
(`instructions.go`, line 20). -/
def coreInstruction : String :=
  "Always call 'get_me' first to understand current user permissions and context."

/-- The raw string bound to `baseInstruction` (`instructions.go`, lines 31-42). -/
def baseInstruction : String :=
  "The GitHub MCP Server provides tools to interact with GitHub platform.\n\nTool selection guidance:\n\t1. Use 'list_*' tools for broad, simple retrieval and pagination of all items of a type (e.g., all issues, all PRs, all branches) with basic filtering.\n\t2. Use 'search_*' tools for targeted queries with specific criteria, keywords, or complex filters (e.g., issues with certain text, PRs by author, code containing functions).\n\nContext management:\n\t1. Use pagination whenever possible with batches of 5-10 items.\n\t2. Use minimal_output parameter set to true if the full information is not needed to accomplish a task.\n\nTool usage guidance:\n\t1. For 'search_*' tools: Use separate 'sort' and 'order' parameters if available for sorting results - do not include 'sort:' syntax in query strings. Query strings should contain only search criteria (e.g., 'org:google language:python'), not sorting instructions."

/-- The raw string returned for `"pull_requests"` (lines 53-55). -/
def pullRequestsInstructions : String :=
  "## Pull Requests\n\nPR review workflow: Always use 'pull_request_review_write' with method 'create' to create a pending review, then 'add_comment_to_pending_review' to add comments, and finally 'pull_request_review_write' with method 'submit_pending' to submit the review for complex reviews with line-specific comments."

/-- The raw string returned for `"issues"` (lines 57-59). -/
def issuesInstructions : String :=
  "## Issues\n\nCheck 'list_issue_types' first for organizations to use proper issue types. Use 'search_issues' before creating new issues to avoid duplicates. Always set 'state_reason' when closing issues."

/-- The raw string returned for `"discussions"` (lines 61-63). -/
def discussionsInstructions : String :=
  "## Discussions\n\t\t\nUse 'list_discussion_categories' to understand available categories before creating discussions. Filter by category for better organization."

/-- The raw string returned for `"projects"` (lines 65-121). -/
def projectsInstructions : String :=
  "## Projects\n\nRead Tools:\n\t- list_projects\n\t- get_project\n\t- list_project_fields\n\t- get_project_field\n\t- list_project_items\n\t- get_project_item\nWrite Tools:\n\t- add_project_item\n\t- update_project_item\n\t- delete_project_item\n\nField usage:\n\t- Call list_project_fields first to understand available fields and get IDs/types before filtering.\n\t- Use EXACT returned field names (case-insensitive match). Don't invent names or IDs.\n\t- Iteration synonyms (sprint/cycle/iteration) only if that field exists; map to the actual name (e.g. sprint:@current).\n\t- Only include filters for fields that exist and are relevant.\n\nPagination (mandatory):\n\tForward (normal) flow:\n\t- Loop while pageInfo.hasNextPage=true using after=pageInfo.nextCursor.\n\t- Keep query, fields, per_page IDENTICAL on every page.\n\tBackward (rare) flow:\n\t- Use before=pageInfo.prevCursor only when explicitly navigating to a previous page.\n\tParameters:\n\t- per_page: results per page (max 50). Choose a stable value; do not change mid-sequence.\n\t- after: forward cursor from prior response (pageInfo.nextCursor).\n\t- before: backward cursor from prior response (pageInfo.prevCursor); seldom needed.\n\nFields parameter:\n\t- Include field IDs on EVERY paginated list_project_items call if you need values. Omit \u2192 title only.\n\nCounting rules:\n\t- Count items array length after full pagination.\n\t- If multi-page: collect all pages, dedupe by item.id (fallback node_id) before totals.\n\t- Never count field objects, content, or nested arrays as separate items.\n\t- item.id = project item ID (for updates/deletes). item.content.id = underlying issue/PR ID.\n\nSummary vs list:\n\t- Summaries ONLY if user uses verbs: analyze | summarize | summary | report | overview | insights.\n\t- Listing verbs (list/show/get/fetch/display/enumerate) \u2192 enumerate + total.\n\nExamples:\n\t- list_projects: \"roadmap is:open\"\n\t- list_project_items: state:open is:issue sprint:@current priority:high updated:>@today-7d\n\nSelf-check before returning:\n\t- Paginated fully\n\t- Dedupe by id/node_id\n\t- Correct IDs used\n\t- Field names valid\n\t- Summary only if requested.\n\nReturn COMPLETE data or state what's missing (e.g. pages skipped)."

/-! ## The program -/

/-- Go `getToolsetInstructions`: a `switch` on the toolset name with four cases
and an empty default. -/
def getToolsetInstructions (toolset : String) : String :=
  if toolset == "pull_requests" then pullRequestsInstructions
  else if toolset == "issues" then issuesInstructions
  else if toolset == "discussions" then discussionsInstructions
  else if toolset == "projects" then projectsInstructions
  else ""

/-- Body of the `for _, toolset := range enabledToolsets` loop: one iteration,
from the slice `instructions` before it to the slice after it. -/
def loopBody (instructions : List String) (toolset : String) : List String :=
  let inst := getToolsetInstructions toolset
  if inst != "" then instructions ++ [inst] else instructions

/-- Go `GenerateInstructions`, with the process environment as an argument. -/
def GenerateInstructions (env : Env) (enabledToolsets : List String) : String :=
  if Getenv env "DISABLE_INSTRUCTIONS" == "true" then
    ""
  else
    let instructions : List String := []
    let instructions :=
      if Contains enabledToolsets "context" then instructions ++ [coreInstruction]
      else instructions
    let instructions := enabledToolsets.foldl loopBody instructions
    let allInstructions := [baseInstruction]
    let allInstructions := allInstructions ++ instructions
    Join allInstructions " "

/-! ## The program as an operation on the process environment -/

/-- Go `os.Getenv` as an operation on the process environment: it returns the
value read and the environment it leaves behind. -/
def GetenvOp (key : String) (env : Env) : String × Env :=
  (Getenv env key, env)

/-- Go `GenerateInstructions` in state-passing form: the environment is the
only state the function touches, through its one call of `os.Getenv`. -/
def GenerateInstructionsOp (enabledToolsets : List String) (env : Env) : String × Env :=
  let (flag, env) := GetenvOp "DISABLE_INSTRUCTIONS" env
  if flag == "true" then
    ("", env)
  else
    let instructions : List String := []
    let instructions :=
      if Contains enabledToolsets "context" then instructions ++ [coreInstruction]
      else instructions
    let instructions := enabledToolsets.foldl loopBody instructions
    let allInstructions := [baseInstruction]
    let allInstructions := allInstructions ++ instructions
    (Join allInstructions " ", env)

/-- Go `os.Setenv` on Unix: the call fails with `EINVAL`, leaving the
environment as it was, when the key is empty, when the key contains `=` or a
NUL byte, or when the value contains a NUL byte; otherwise it binds `key` to
`value`. -/
def Setenv (env : Env) (key value : String) : Env :=
  if key.data = [] then env
  else if key.data.any (fun c => c == '=' || c == Char.ofNat 0) then env
  else if value.data.any (fun c => c == Char.ofNat 0) then env
  else fun k => if k = key then some value else env k

/-- Go `os.Unsetenv`: remove the binding of `key`. -/
def Unsetenv (env : Env) (key : String) : Env :=
  fun k => if k = key then none else env k

/-- What can happen to the process between start and end: the environment is
changed from outside, or `GenerateInstructions` is called. -/
inductive Op where
  | setenv (key value : String)
  | unsetenv (key : String)
  | generate (enabledToolsets : List String)

/-- Run a sequence of operations from an initial environment; the result is
the list of strings returned by the calls, in order, and the final environment. -/
def runOps : List Op → Env → List String × Env
  | [], env => ([], env)
  | Op.setenv key value :: rest, env => runOps rest (Setenv env key value)
  | Op.unsetenv key :: rest, env => runOps rest (Unsetenv env key)
  | Op.generate xs :: rest, env =>
    let (out, env1) := GenerateInstructionsOp xs env
    let (outs, env2) := runOps rest env1
    (out :: outs, env2)

/-- The environment after the outside changes of a sequence of operations,
with every call of `GenerateInstructions` left out. -/
def envAfter : List Op → Env → Env
  | [], env => env
  | Op.setenv key value :: rest, env => envAfter rest (Setenv env key value)
  | Op.unsetenv key :: rest, env => envAfter rest (Unsetenv env key)
  | Op.generate _ :: rest, env => envAfter rest env

/-- The operation is a change of the environment from outside, not a call. -/
def isChange : Op → Bool
  | Op.generate _ => false
  | _ => true

/-! ## The program with the panic of `strings.Join` -/

/-- Largest value of Go's `int` on a 64-bit platform. -/
def maxInt64 : Nat := 2 ^ 63 - 1

/-- The four identifiers the hint table knows. -/
def knownToolsets : List String :=
  ["pull_requests", "issues", "discussions", "projects"]

/-- Step 4 of the specification, in its words: the ordered list made of the
baseline fragment, the core-context fragment if `context` is present, and the
non-empty per-toolset fragments in input order. -/
def assembledFragments (xs : List String) : List String :=
  [baseInstruction]
    ++ (if "context" ∈ xs then [coreInstruction] else [])
    ++ (xs.map getToolsetInstructions).filter (fun f => decide (f ≠ ""))

/-- The result determined by the flag value at a call and the input of the call. -/
def flagResult (flag : Option String) (xs : List String) : String :=
  if flag = some "true" then "" else " ".intercalate (assembledFragments xs)

/-- The text that follows the first element of a single-space join: every
fragment preceded by one space. -/
def tailText : List String → String
  | [] => ""
  | f :: fs => (" " ++ f) ++ tailText fs

/-- Number of positions of `s` at which an occurrence of `p` starts. -/
def occ (p : List Char) : List Char → Nat
  | [] => if p.isPrefixOf [] then 1 else 0
  | c :: s => (if p.isPrefixOf (c :: s) then 1 else 0) + occ p s

/-- Number of occurrences of the text `sub` in the text `s`. -/
def occurrences (sub s : String) : Nat :=
  occ sub.data s.data

/-- The text `s` contains the text `sub`. -/
def hasSubstring (s sub : String) : Prop :=
  ∃ l r : String, s = (l ++ sub) ++ r

/-- No non-empty final segment of `a`, followed by one space, begins `p`:
an occurrence of `p` cannot start inside `a` and run over a separator. -/
def noSpan (p : List Char) : List Char → Bool
  | [] => true
  | c :: a => !((c :: a) ++ [' ']).isPrefixOf p && noSpan p a

/-- The pattern `p` is non-empty and does not start with a space. -/
def startOK : List Char → Bool
  | [] => false
  | c :: _ => c != ' '

/-- The five fragments that can follow the baseline. -/
def followFragments : List String :=
  [coreInstruction, pullRequestsInstructions, issuesInstructions,
    discussionsInstructions, projectsInstructions]

/-- The slice `instructions` after the `context` test (lines 18-21). -/
def contextFragments (xs : List String) : List String :=
  if "context" ∈ xs then [coreInstruction] else []

/-- The non-empty per-toolset fragments of `xs`, in input order. -/
def toolsetFragments (xs : List String) : List String :=
  (xs.map getToolsetInstructions).filter (fun f => decide (f ≠ ""))

/-- The text `s` begins with the text `pre`. -/
def startsWithText (s pre : String) : Prop :=
  ∃ r : String, s = pre ++ r

/-- An environment in which no variable is set. -/
def envUnset : Env := fun _ => none

/-- An environment in which only `DISABLE_INSTRUCTIONS` is set, to `v`. -/
def envFlag (v : String) : Env :=
  fun key => if key = "DISABLE_INSTRUCTIONS" then some v else none

/-- An environment in which `DISABLE_INSTRUCTIONS` is set to `v` and every
other variable is set to `"true"`. -/
def envNoise (v : String) : Env :=
  fun key => if key = "DISABLE_INSTRUCTIONS" then some v else some "true"

/-- The text appended for `ys`: for every element whose hint is non-empty, in
order, one space followed by the hint. -/
def appendedText (ys : List String) : String :=
  String.join
    ((ys.filter (fun y => decide (getToolsetInstructions y ≠ ""))).map
      (fun y => " " ++ getToolsetInstructions y))

/-! ## Library calls and the loop -/

theorem Getenv_eq_true_iff (env : Env) (key : String) :
    Getenv env key = "true" ↔ env key = some "true" := by
  unfold Getenv
  cases h : env key with
  | none => simp
  | some v => simp

theorem Contains_iff (s : List String) (v : String) : Contains s v = true ↔ v ∈ s := by
  induction s with
  | nil => simp [Contains]
  | cons x rest ih =>
    by_cases h : x = v
    · simp [Contains, h]
    · have h2 : ¬ v = x := fun e => h e.symm
      simp [Contains, h, h2, ih]

theorem foldl_loopBody (xs acc : List String) :
    xs.foldl loopBody acc
      = acc ++ (xs.map getToolsetInstructions).filter (fun f => decide (f ≠ "")) := by
  induction xs generalizing acc with
  | nil => simp
  | cons x rest ih =>
    rw [List.foldl_cons, ih]
    by_cases h : getToolsetInstructions x = ""
    · simp [loopBody, h]
    · simp [loopBody, h]

theorem foldl_write (rest : List String) (e : String) :
    rest.foldl (fun b s => (b ++ " ") ++ s) e = e ++ tailText rest := by
  induction rest generalizing e with
  | nil => simp [tailText]
  | cons f fs ih =>
    rw [List.foldl_cons, ih, tailText]
    simp only [String.append_assoc]

theorem Join_cons (e : String) (rest : List String) :
    Join (e :: rest) " " = e ++ tailText rest := by
  cases rest with
  | nil => simp [Join, tailText]
  | cons f fs => simp only [Join]; exact foldl_write (f :: fs) e

theorem intercalate_go (rest : List String) (e : String) :
    String.intercalate.go e " " rest = e ++ tailText rest := by
  induction rest generalizing e with
  | nil => simp [String.intercalate.go, tailText]
  | cons f fs ih =>
    rw [String.intercalate.go, ih, tailText]
    simp only [String.append_assoc]

theorem intercalate_cons (e : String) (rest : List String) :
    " ".intercalate (e :: rest) = e ++ tailText rest := by
  simp only [String.intercalate]; exact intercalate_go rest e

/-- The fragments that follow the baseline, as the code collects them. -/
theorem GenerateInstructions_normal (env : Env) (xs : List String)
    (h : env "DISABLE_INSTRUCTIONS" ≠ some "true") :
    GenerateInstructions env xs
      = baseInstruction ++ tailText (contextFragments xs ++ toolsetFragments xs) := by
  have hg : ¬ Getenv env "DISABLE_INSTRUCTIONS" = "true" := fun e =>
    h ((Getenv_eq_true_iff env _).1 e)
  unfold GenerateInstructions contextFragments toolsetFragments
  simp only [beq_iff_eq, hg, if_false, List.nil_append, List.singleton_append]
  rw [Join_cons, foldl_loopBody]
  by_cases hc : "context" ∈ xs
  · simp [(Contains_iff xs "context").2 hc, hc]
  · have : Contains xs "context" = false := by
      cases hh : Contains xs "context" with
      | false => rfl
      | true => exact absurd ((Contains_iff xs "context").1 hh) hc
    simp [this, hc]

/-! ## Occurrences of a pattern in joined text -/

theorem occ_nil {p : List Char} (hp : startOK p = true) : occ p [] = 0 := by
  cases p with
  | nil => simp [startOK] at hp
  | cons c cs => simp [occ]

theorem occ_space_cons {p : List Char} (hp : startOK p = true) (t : List Char) :
    occ p (' ' :: t) = occ p t := by
  cases p with
  | nil => simp [startOK] at hp
  | cons c cs =>
    have hc : c ≠ ' ' := by simpa [startOK] using hp
    simp [occ, List.isPrefixOf, hc]

theorem prefix_span_iff {p x : List Char} (t : List Char) (h : ¬ (x ++ [' ']) <+: p) :
    p <+: x ++ ' ' :: t ↔ p <+: x := by
  constructor
  · intro hp
    have h1 : x ++ [' '] <+: x ++ ' ' :: t := by
      have e : x ++ ' ' :: t = (x ++ [' ']) ++ t := by simp
      rw [e]
      exact List.prefix_append _ _
    rcases List.prefix_or_prefix_of_prefix hp h1 with h2 | h2
    · rcases List.prefix_concat_iff.1 h2 with h3 | h3
      · exact absurd (h3 ▸ List.prefix_refl p) h
      · exact h3
    · exact absurd h2 h
  · intro hp
    exact hp.trans (List.prefix_append _ _)

theorem occ_append_space {p : List Char} (hp : startOK p = true) (a t : List Char)
    (h : noSpan p a = true) : occ p (a ++ ' ' :: t) = occ p a + occ p t := by
  induction a with
  | nil => simp [occ_nil hp, occ_space_cons hp]
  | cons c a ih =>
    simp only [noSpan, Bool.and_eq_true, Bool.not_eq_true'] at h
    obtain ⟨h1, h2⟩ := h
    have h1' : ¬ ((c :: a) ++ [' ']) <+: p := by
      rw [← List.isPrefixOf_iff_prefix, h1]
      simp
    have key : p.isPrefixOf ((c :: a) ++ ' ' :: t) = p.isPrefixOf (c :: a) := by
      rw [Bool.eq_iff_iff]
      simp only [List.isPrefixOf_iff_prefix]
      exact prefix_span_iff t h1'
    have e : occ p ((c :: a) ++ ' ' :: t)
        = (if p.isPrefixOf ((c :: a) ++ ' ' :: t) then 1 else 0) + occ p (a ++ ' ' :: t) := rfl
    have e2 : occ p (c :: a) = (if p.isPrefixOf (c :: a) then 1 else 0) + occ p a := rfl
    rw [e, e2, key, ih h2]
    omega

theorem occ_tailText {p : List Char} (hp : startOK p = true) (fs : List String)
    (hfs : ∀ f ∈ fs, noSpan p f.data = true) (a : List Char) (ha : noSpan p a = true) :
    occ p (a ++ (tailText fs).data) = occ p a + (fs.map (fun f => occ p f.data)).sum := by
  induction fs generalizing a with
  | nil => simp [tailText]
  | cons f fs ih =>
    have e : a ++ (tailText (f :: fs)).data = a ++ ' ' :: (f.data ++ (tailText fs).data) := by
      simp [tailText]
    rw [e, occ_append_space hp a _ ha,
      ih (fun g hg => hfs g (List.mem_cons_of_mem _ hg)) f.data (hfs f (List.mem_cons_self _ _))]
    simp only [List.map_cons, List.sum_cons]

theorem occ_pos_iff (p s : List Char) : 0 < occ p s ↔ p <:+: s := by
  induction s with
  | nil =>
    cases p with
    | nil => simp [occ]
    | cons c cs => simp [occ]
  | cons c s ih =>
    rw [List.infix_cons_iff, ← ih, ← List.isPrefixOf_iff_prefix]
    have e : occ p (c :: s) = (if p.isPrefixOf (c :: s) then 1 else 0) + occ p s := rfl
    rw [e]
    by_cases hpre : p.isPrefixOf (c :: s) = true
    · simp [hpre]
    · simp [hpre]

theorem hasSubstring_iff (s sub : String) : hasSubstring s sub ↔ 0 < occurrences sub s := by
  unfold occurrences
  rw [occ_pos_iff]
  constructor
  · rintro ⟨l, r, h⟩
    exact ⟨l.data, r.data, by rw [h]; simp⟩
  · rintro ⟨l, r, h⟩
    exact ⟨⟨l⟩, ⟨r⟩, String.ext (by simp [← h])⟩

/-! ## Facts about the fixed texts, by evaluation -/

theorem startOK_follow : ∀ p ∈ followFragments, startOK p.data = true := by
  decide!

theorem noSpan_follow :
    ∀ p ∈ followFragments, ∀ f ∈ baseInstruction :: followFragments,
      noSpan p.data f.data = true := by
  decide!

theorem occ_follow_base : ∀ p ∈ followFragments, occ p.data baseInstruction.data = 0 := by
  decide!

theorem occ_follow_follow :
    ∀ p ∈ followFragments, ∀ f ∈ followFragments,
      occ p.data f.data = if f = p then 1 else 0 := by
  decide!

theorem followFragments_nodup : followFragments.Nodup := by
  decide!

theorem followFragments_ne_empty : ∀ f ∈ followFragments, f ≠ "" := by
  decide!

/-! ## The collected fragments -/

theorem getToolsetInstructions_cases (x : String) :
    (x = "pull_requests" ∧ getToolsetInstructions x = pullRequestsInstructions) ∨
    (x = "issues" ∧ getToolsetInstructions x = issuesInstructions) ∨
    (x = "discussions" ∧ getToolsetInstructions x = discussionsInstructions) ∨
    (x = "projects" ∧ getToolsetInstructions x = projectsInstructions) ∨
    (x ∉ knownToolsets ∧ getToolsetInstructions x = "") := by
  unfold getToolsetInstructions
  by_cases h1 : x = "pull_requests"
  · subst h1; left; exact ⟨rfl, by simp⟩
  by_cases h2 : x = "issues"
  · subst h2; right; left; exact ⟨rfl, by simp⟩
  by_cases h3 : x = "discussions"
  · subst h3; right; right; left; exact ⟨rfl, by simp⟩
  by_cases h4 : x = "projects"
  · subst h4; right; right; right; left; exact ⟨rfl, by simp⟩
  right; right; right; right
  simp [knownToolsets, h1, h2, h3, h4]

theorem getToolsetInstructions_mem (x : String) :
    getToolsetInstructions x = "" ∨ getToolsetInstructions x ∈ followFragments := by
  rcases getToolsetInstructions_cases x with h | h | h | h | h
  all_goals (rw [h.2]; simp [followFragments])

theorem toolsetFragments_nil : toolsetFragments [] = [] := rfl

theorem toolsetFragments_cons (x : String) (xs : List String) :
    toolsetFragments (x :: xs)
      = (if getToolsetInstructions x = "" then [] else [getToolsetInstructions x])
          ++ toolsetFragments xs := by
  unfold toolsetFragments
  by_cases h : getToolsetInstructions x = ""
  · simp [h]
  · simp [h]

theorem toolsetFragments_mem (xs : List String) :
    ∀ f ∈ toolsetFragments xs, f ∈ followFragments ∧ f ≠ coreInstruction := by
  intro f hf
  simp only [toolsetFragments, List.mem_filter, List.mem_map] at hf
  obtain ⟨⟨x, -, rfl⟩, hne⟩ := hf
  rcases getToolsetInstructions_cases x with h | h | h | h | h
  all_goals rw [h.2] at hne ⊢
  · exact ⟨by simp [followFragments], by decide!⟩
  · exact ⟨by simp [followFragments], by decide!⟩
  · exact ⟨by simp [followFragments], by decide!⟩
  · exact ⟨by simp [followFragments], by decide!⟩
  · simp at hne

theorem collected_mem (xs : List String) :
    ∀ f ∈ contextFragments xs ++ toolsetFragments xs, f ∈ followFragments := by
  intro f hf
  rcases List.mem_append.1 hf with h | h
  · unfold contextFragments at h
    split at h
    · simp at h; subst h; simp [followFragments]
    · simp at h
  · exact (toolsetFragments_mem xs f h).1

theorem sum_occ_eq_count {p : String} (hp : p ∈ followFragments) (fs : List String)
    (hfs : ∀ f ∈ fs, f ∈ followFragments) :
    (fs.map (fun f => occ p.data f.data)).sum = fs.count p := by
  induction fs with
  | nil => simp
  | cons f fs ih =>
    rw [List.map_cons, List.sum_cons, ih (fun g hg => hfs g (List.mem_cons_of_mem _ hg)),
      occ_follow_follow p hp f (hfs f (List.mem_cons_self _ _)), List.count_cons]
    simp only [beq_iff_eq]
    omega

theorem occurrences_normal {p : String} (hp : p ∈ followFragments) (env : Env)
    (xs : List String) (h : env "DISABLE_INSTRUCTIONS" ≠ some "true") :
    occurrences p (GenerateInstructions env xs)
      = (contextFragments xs ++ toolsetFragments xs).count p := by
  rw [GenerateInstructions_normal env xs h]
  unfold occurrences
  rw [String.data_append,
    occ_tailText (startOK_follow p hp) _
      (fun f hf => noSpan_follow p hp f (List.mem_cons_of_mem _ (collected_mem xs f hf)))
      _ (noSpan_follow p hp _ (List.mem_cons_self _ _)),
    occ_follow_base p hp, sum_occ_eq_count hp _ (collected_mem xs)]
  omega

theorem count_core (xs : List String) :
    (contextFragments xs ++ toolsetFragments xs).count coreInstruction
      = if "context" ∈ xs then 1 else 0 := by
  rw [List.count_append,
    List.count_eq_zero_of_not_mem (fun hm => (toolsetFragments_mem xs _ hm).2 rfl)]
  unfold contextFragments
  split <;> simp

theorem count_toolset {k : String} (hk : k ∈ knownToolsets) (xs : List String) :
    (toolsetFragments xs).count (getToolsetInstructions k) = xs.count k := by
  have hkne : getToolsetInstructions k ≠ "" := by
    simp only [knownToolsets, List.mem_cons, List.mem_singleton, List.not_mem_nil, or_false] at hk
    rcases hk with rfl | rfl | rfl | rfl <;> decide!
  have hinj : ∀ x, getToolsetInstructions x = getToolsetInstructions k → x = k := by
    intro x hx
    simp only [knownToolsets, List.mem_cons, List.mem_singleton, List.not_mem_nil, or_false] at hk
    rcases getToolsetInstructions_cases x with h | h | h | h | h
    · obtain ⟨rfl, -⟩ := h
      rcases hk with rfl | rfl | rfl | rfl
      · rfl
      all_goals exact absurd hx (by decide!)
    · obtain ⟨rfl, -⟩ := h
      rcases hk with rfl | rfl | rfl | rfl
      · exact absurd hx (by decide!)
      · rfl
      all_goals exact absurd hx (by decide!)
    · obtain ⟨rfl, -⟩ := h
      rcases hk with rfl | rfl | rfl | rfl
      · exact absurd hx (by decide!)
      · exact absurd hx (by decide!)
      · rfl
      · exact absurd hx (by decide!)
    · obtain ⟨rfl, -⟩ := h
      rcases hk with rfl | rfl | rfl | rfl
      · exact absurd hx (by decide!)
      · exact absurd hx (by decide!)
      · exact absurd hx (by decide!)
      · rfl
    · exact absurd (hx.symm.trans h.2) hkne
  induction xs with
  | nil => simp [toolsetFragments]
  | cons x xs ih =>
    rw [toolsetFragments_cons, List.count_append, ih, List.count_cons]
    by_cases hx : x = k
    · subst hx
      simp [hkne]
      omega
    · have hne : ¬ getToolsetInstructions x = getToolsetInstructions k := fun e => hx (hinj x e)
      by_cases he : getToolsetInstructions x = ""
      · simp [he, hx]
      · simp [List.count_cons, he, hx, hne]

theorem baseInstruction_ne_empty : baseInstruction ≠ "" := by
  decide!

theorem append_ne_empty {a : String} (ha : a ≠ "") (b : String) : a ++ b ≠ "" := by
  intro h
  apply ha
  have hd : (a ++ b).data = [] := by rw [h]
  rw [String.data_append, List.append_eq_nil] at hd
  exact String.ext hd.1

theorem tailText_append (a b : List String) :
    tailText (a ++ b) = tailText a ++ tailText b := by
  induction a with
  | nil => simp [tailText]
  | cons f fs ih =>
    rw [List.cons_append, tailText, tailText, ih]
    simp only [String.append_assoc]

theorem getToolsetInstructions_ne_empty_iff (x : String) :
    getToolsetInstructions x ≠ "" ↔ x ∈ knownToolsets := by
  rcases getToolsetInstructions_cases x with h | h | h | h | h
  · rw [h.2, h.1]; exact ⟨fun _ => by decide, fun _ => by decide!⟩
  · rw [h.2, h.1]; exact ⟨fun _ => by decide, fun _ => by decide!⟩
  · rw [h.2, h.1]; exact ⟨fun _ => by decide, fun _ => by decide!⟩
  · rw [h.2, h.1]; exact ⟨fun _ => by decide, fun _ => by decide!⟩
  · rw [h.2]; exact ⟨fun hne => absurd rfl hne, fun hk => absurd hk h.1⟩

theorem toolsetFragments_eq_map (xs : List String) :
    toolsetFragments xs
      = (xs.filter (fun x => decide (x ∈ knownToolsets))).map getToolsetInstructions := by
  induction xs with
  | nil => rfl
  | cons x xs ih =>
    rw [toolsetFragments_cons, ih]
    by_cases hk : x ∈ knownToolsets
    · have := (getToolsetInstructions_ne_empty_iff x).2 hk
      simp [hk, this]
    · have : getToolsetInstructions x = "" := by
        by_contra hne
        exact hk ((getToolsetInstructions_ne_empty_iff x).1 hne)
      simp [hk, this]

theorem toolsetFragments_filter (q : String → Bool) (xs : List String)
    (hq : ∀ x ∈ knownToolsets, q x = true) :
    toolsetFragments (xs.filter q) = toolsetFragments xs := by
  induction xs with
  | nil => rfl
  | cons x xs ih =>
    by_cases hx : q x = true
    · rw [List.filter_cons_of_pos hx, toolsetFragments_cons, toolsetFragments_cons, ih]
    · have hk : x ∉ knownToolsets := fun hk => hx (hq x hk)
      have : getToolsetInstructions x = "" := by
        by_contra hne
        exact hk ((getToolsetInstructions_ne_empty_iff x).1 hne)
      rw [List.filter_cons_of_neg hx, toolsetFragments_cons, ih]
      simp [this]

theorem toolsetFragments_unknown (xs : List String) (h : ∀ x ∈ xs, x ∉ knownToolsets) :
    toolsetFragments xs = [] := by
  rw [toolsetFragments_eq_map, List.filter_eq_nil_iff.2 (by simpa using h)]
  rfl

theorem getToolsetInstructions_known {k : String} (hk : k ∈ knownToolsets) :
    getToolsetInstructions k ∈ followFragments ∧ getToolsetInstructions k ≠ coreInstruction := by
  have h1 : getToolsetInstructions k ∈ toolsetFragments [k] := by
    rw [toolsetFragments_eq_map]
    simp [hk]
  exact toolsetFragments_mem [k] _ h1

theorem contextFragments_of_mem {xs : List String} (h : "context" ∈ xs) :
    contextFragments xs = [coreInstruction] := by
  simp [contextFragments, h]

theorem contextFragments_of_not_mem {xs : List String} (h : "context" ∉ xs) :
    contextFragments xs = [] := by
  simp [contextFragments, h]

theorem occurrences_core (env : Env) (xs : List String)
    (h : env "DISABLE_INSTRUCTIONS" ≠ some "true") :
    occurrences coreInstruction (GenerateInstructions env xs)
      = if "context" ∈ xs then 1 else 0 := by
  rw [occurrences_normal (by simp [followFragments]) env xs h, count_core]

theorem baseInstruction_ends :
    baseInstruction.data.head? = some 'T' ∧ baseInstruction.data.getLast? = some '.' := by
  decide!

/-! ## The environment as state, and appended input -/

theorem GenerateInstructionsOp_eq (xs : List String) (env : Env) :
    GenerateInstructionsOp xs env = (GenerateInstructions env xs, env) := by
  unfold GenerateInstructionsOp GenerateInstructions GetenvOp
  by_cases hg : (Getenv env "DISABLE_INSTRUCTIONS" == "true") = true
  · simp only [hg, if_true]
  · simp only [hg, if_false, Bool.false_eq_true]

theorem runOps_generate (xs : List String) (rest : List Op) (env : Env) :
    runOps (Op.generate xs :: rest) env
      = (GenerateInstructions env xs :: (runOps rest env).1, (runOps rest env).2) := by
  simp only [runOps, GenerateInstructionsOp_eq]

theorem runOps_snd (ops : List Op) (env : Env) : (runOps ops env).2 = envAfter ops env := by
  induction ops generalizing env with
  | nil => rfl
  | cons op rest ih =>
    cases op with
    | setenv k v => simp only [runOps, envAfter, ih]
    | unsetenv k => simp only [runOps, envAfter, ih]
    | generate xs => rw [runOps_generate]; simp only [envAfter, ih]

theorem runOps_append (pre post : List Op) (env : Env) :
    (runOps (pre ++ post) env).1
      = (runOps pre env).1 ++ (runOps post (envAfter pre env)).1 := by
  induction pre generalizing env with
  | nil => rfl
  | cons op rest ih =>
    cases op with
    | setenv k v =>
      rw [List.cons_append]
      simp only [runOps, envAfter]
      exact ih _
    | unsetenv k =>
      rw [List.cons_append]
      simp only [runOps, envAfter]
      exact ih _
    | generate xs =>
      rw [List.cons_append, runOps_generate, runOps_generate]
      simp only [envAfter, ih, List.cons_append]

theorem toolsetFragments_append (xs ys : List String) :
    toolsetFragments (xs ++ ys) = toolsetFragments xs ++ toolsetFragments ys := by
  simp [toolsetFragments]

theorem join_foldl (l : List String) (acc : String) :
    l.foldl (fun r s => r ++ s) acc = acc ++ String.join l := by
  have hj : ∀ l : List String, String.join l = l.foldl (fun r s => r ++ s) "" := fun _ => rfl
  induction l generalizing acc with
  | nil => simp [hj]
  | cons a l ih =>
    rw [List.foldl_cons, ih, hj (a :: l), List.foldl_cons, ih ("" ++ a)]
    simp [String.append_assoc]

theorem appendedText_eq (ys : List String) :
    appendedText ys = tailText (toolsetFragments ys) := by
  unfold appendedText
  induction ys with
  | nil => rfl
  | cons y ys ih =>
    rw [toolsetFragments_cons]
    by_cases h : getToolsetInstructions y = ""
    · simp only [h, if_true, List.nil_append]
      rw [← ih, List.filter_cons_of_neg (by simp [h])]
    · simp only [h, if_false, List.singleton_append, tailText]
      rw [← ih, List.filter_cons_of_pos (by simp [h]), List.map_cons, String.join,
        List.foldl_cons, join_foldl]
      simp

/-! ## The length checks of `strings.Join` -/

theorem runOps_filter_snd (ops : List Op) (env : Env) :
    (runOps (ops.filter isChange) env).2 = envAfter ops env := by
  induction ops generalizing env with
  | nil => rfl
  | cons op rest ih =>
    cases op with
    | setenv k v =>
      rw [List.filter_cons_of_pos (by rfl)]
      simp only [runOps, envAfter]
      exact ih _
    | unsetenv k =>
      rw [List.filter_cons_of_pos (by rfl)]
      simp only [runOps, envAfter]
      exact ih _
    | generate xs =>
      rw [List.filter_cons_of_neg (by simp [isChange])]
      simp only [envAfter]
      exact ih _

theorem GenerateInstructions_eq_flagResult (env : Env) (xs : List String) :
    GenerateInstructions env xs = flagResult (env "DISABLE_INSTRUCTIONS") xs := by
  unfold flagResult
  by_cases h : env "DISABLE_INSTRUCTIONS" = some "true"
  · have hg : Getenv env "DISABLE_INSTRUCTIONS" = "true" := (Getenv_eq_true_iff env _).2 h
    rw [if_pos h]
    simp [GenerateInstructions, hg]
  · rw [if_neg h, GenerateInstructions_normal env xs h]
    simp only [assembledFragments, List.singleton_append, List.cons_append, List.nil_append]
    rw [intercalate_cons]
    rfl

theorem Setenv_flag_true (env : Env) :
    Setenv env "DISABLE_INSTRUCTIONS" "true" "DISABLE_INSTRUCTIONS" = some "true" := by
  have h1 : ¬ "DISABLE_INSTRUCTIONS".data = [] := by decide
  have h2 : ("DISABLE_INSTRUCTIONS".data.any (fun c => c == '=' || c == Char.ofNat 0)) = false := by
    decide
  have h3 : ("true".data.any (fun c => c == Char.ofNat 0)) = false := by decide
  unfold Setenv
  rw [if_neg h1, h2, h3]
  simp

theorem Setenv_nul_value (env : Env) (key : String) :
    Setenv env key "x\x00y" = env := by
  have h3 : ("x\x00y".data.any (fun c => c == Char.ofNat 0)) = true := by decide
  unfold Setenv
  rw [h3]
  simp

/-! ## Composition and bypass -/

/-- C1: when the bypass flag is not `"true"`, `GenerateInstructions xs` is the
single-space join of the baseline fragment, the core-context fragment if
`"context"` is a member of `xs`, and the non-empty results of
`getToolsetInstructions` over `xs` in input order. -/
theorem GenerateInstructions_eq_join (env : Env) (xs : List String)
    (h : env "DISABLE_INSTRUCTIONS" ≠ some "true") :
    GenerateInstructions env xs = " ".intercalate (assembledFragments xs) := by
  rw [GenerateInstructions_normal env xs h]
  simp only [assembledFragments, contextFragments, toolsetFragments, List.singleton_append, List.cons_append, List.nil_append]
  rw [intercalate_cons]

theorem GenerateInstructions_eq_join_witness :
    envUnset "DISABLE_INSTRUCTIONS" ≠ some "true" ∧
      GenerateInstructions envUnset ["issues", "context", "nope"]
        = " ".intercalate (assembledFragments ["issues", "context", "nope"]) :=
  ⟨by decide, GenerateInstructions_eq_join envUnset ["issues", "context", "nope"] (by decide)⟩

/-- C2: when `DISABLE_INSTRUCTIONS` is exactly `"true"`, `GenerateInstructions`
returns the empty string for every list of toolset identifiers. -/
theorem GenerateInstructions_bypass (env : Env) (xs : List String)
    (h : env "DISABLE_INSTRUCTIONS" = some "true") :
    GenerateInstructions env xs = "" := by
  have hg : Getenv env "DISABLE_INSTRUCTIONS" = "true" := (Getenv_eq_true_iff env _).2 h
  simp [GenerateInstructions, hg]

theorem GenerateInstructions_bypass_witness :
    envFlag "true" "DISABLE_INSTRUCTIONS" = some "true" ∧
      GenerateInstructions (envFlag "true") ["context", "issues"] = "" :=
  ⟨by decide, GenerateInstructions_bypass (envFlag "true") ["context", "issues"] (by decide)⟩

/-- C3: for every input list and every state of `DISABLE_INSTRUCTIONS`,
`GenerateInstructions` returns the empty string if and only if the variable is
set to exactly `"true"`; for every other value, or when it is unset, the result
is non-empty and equal to the result under any environment in which the
variable is absent. -/
theorem GenerateInstructions_empty_iff (env : Env) (xs : List String) :
    (GenerateInstructions env xs = "" ↔ env "DISABLE_INSTRUCTIONS" = some "true") ∧
    (env "DISABLE_INSTRUCTIONS" ≠ some "true" →
      GenerateInstructions env xs ≠ "" ∧
      ∀ env0 : Env, env0 "DISABLE_INSTRUCTIONS" = none →
        GenerateInstructions env xs = GenerateInstructions env0 xs) := by
  have hne : env "DISABLE_INSTRUCTIONS" ≠ some "true" → GenerateInstructions env xs ≠ "" := by
    intro h
    rw [GenerateInstructions_normal env xs h]
    exact append_ne_empty baseInstruction_ne_empty _
  refine ⟨⟨fun he => ?_, fun ht => ?_⟩, fun h => ⟨hne h, fun env0 h0 => ?_⟩⟩
  · by_contra h
    exact hne h he
  · have hg : Getenv env "DISABLE_INSTRUCTIONS" = "true" := (Getenv_eq_true_iff env _).2 ht
    simp [GenerateInstructions, hg]
  · rw [GenerateInstructions_normal env xs h,
      GenerateInstructions_normal env0 xs (by rw [h0]; exact fun e => Option.noConfusion e)]

theorem GenerateInstructions_empty_iff_witness :
    GenerateInstructions (envFlag "TRUE") ["issues"] ≠ "" ∧
      GenerateInstructions (envFlag "TRUE") ["issues"] = GenerateInstructions envUnset ["issues"] :=
  ((GenerateInstructions_empty_iff (envFlag "TRUE") ["issues"]).2 (by decide)).imp_right
    (fun h => h envUnset rfl)

/-- C4: when bypass is not active, the output begins with the exact text of
the baseline fragment, and it either is the baseline or continues with exactly
one space followed by text whose first character is not a space. -/
theorem baseline_first (env : Env) (xs : List String)
    (h : env "DISABLE_INSTRUCTIONS" ≠ some "true") :
    startsWithText (GenerateInstructions env xs) baseInstruction ∧
    (GenerateInstructions env xs = baseInstruction ∨
      ∃ (rest : String) (c : Char) (cs : List Char),
        GenerateInstructions env xs = (baseInstruction ++ " ") ++ rest ∧
          rest.data = c :: cs ∧ c ≠ ' ') := by
  rw [GenerateInstructions_normal env xs h]
  refine ⟨⟨_, rfl⟩, ?_⟩
  have hm := collected_mem xs
  generalize contextFragments xs ++ toolsetFragments xs = fs at hm
  cases fs with
  | nil => left; simp [tailText]
  | cons f fs =>
    right
    have hs := startOK_follow f (hm f (List.mem_cons_self _ _))
    cases hd : f.data with
    | nil => rw [hd] at hs; simp [startOK] at hs
    | cons c cs =>
      rw [hd] at hs
      refine ⟨f ++ tailText fs, c, cs ++ (tailText fs).data, ?_, ?_, ?_⟩
      · simp only [tailText, String.append_assoc]
      · simp [hd]
      · simpa [startOK] using hs

theorem baseline_first_witness :
    envUnset "DISABLE_INSTRUCTIONS" ≠ some "true" ∧
    startsWithText (GenerateInstructions envUnset ["projects", "context"]) baseInstruction ∧
    (GenerateInstructions envUnset ["projects", "context"] = baseInstruction ∨
      ∃ (rest : String) (c : Char) (cs : List Char),
        GenerateInstructions envUnset ["projects", "context"] = (baseInstruction ++ " ") ++ rest ∧
          rest.data = c :: cs ∧ c ≠ ' ') :=
  ⟨by decide, baseline_first envUnset ["projects", "context"] (by decide)⟩

/-- C5: with bypass inactive, the output contains the core-context fragment if
and only if `"context"` is a member of the input; when it is a member, the
fragment occurs exactly once in the output, and the output is the baseline, one
space, the core-context fragment, and then every per-toolset fragment, each
preceded by one space. -/
theorem core_context_fragment (env : Env) (xs : List String)
    (h : env "DISABLE_INSTRUCTIONS" ≠ some "true") :
    (hasSubstring (GenerateInstructions env xs) coreInstruction ↔ "context" ∈ xs) ∧
    ("context" ∈ xs →
      occurrences coreInstruction (GenerateInstructions env xs) = 1 ∧
      GenerateInstructions env xs
        = ((baseInstruction ++ " ") ++ coreInstruction) ++ tailText (toolsetFragments xs)) := by
  have hocc := occurrences_core env xs h
  refine ⟨?_, fun hc => ⟨by rw [hocc, if_pos hc], ?_⟩⟩
  · rw [hasSubstring_iff, hocc]
    by_cases hc : "context" ∈ xs
    · simp [hc]
    · simp [hc]
  · rw [GenerateInstructions_normal env xs h, contextFragments_of_mem hc,
      List.singleton_append, tailText]
    simp only [String.append_assoc]

theorem core_context_fragment_witness :
    envUnset "DISABLE_INSTRUCTIONS" ≠ some "true" ∧
    "context" ∈ ["issues", "context", "context"] ∧
    occurrences coreInstruction (GenerateInstructions envUnset ["issues", "context", "context"]) = 1 ∧
    GenerateInstructions envUnset ["issues", "context", "context"]
      = ((baseInstruction ++ " ") ++ coreInstruction)
          ++ tailText (toolsetFragments ["issues", "context", "context"]) :=
  ⟨by decide, by decide,
    (core_context_fragment envUnset ["issues", "context", "context"] (by decide)).2 (by decide)⟩

/-- C6: with bypass inactive, for every known identifier `k` the number of
occurrences of the fragment of `k` in the output equals the number of
occurrences of `k` in the input, and the per-toolset part of the output is the
fragments of the known identifiers of the input, in input order, each preceded
by one space. -/
theorem toolset_fragments_per_occurrence (env : Env) (xs : List String)
    (h : env "DISABLE_INSTRUCTIONS" ≠ some "true") :
    (∀ k ∈ knownToolsets,
      occurrences (getToolsetInstructions k) (GenerateInstructions env xs) = xs.count k) ∧
    GenerateInstructions env xs
      = (baseInstruction ++ tailText (contextFragments xs))
          ++ tailText ((xs.filter (fun x => decide (x ∈ knownToolsets))).map
              getToolsetInstructions) := by
  constructor
  · intro k hk
    obtain ⟨hmem, hne⟩ := getToolsetInstructions_known hk
    rw [occurrences_normal hmem env xs h, List.count_append, count_toolset hk]
    have h0 : (contextFragments xs).count (getToolsetInstructions k) = 0 := by
      apply List.count_eq_zero_of_not_mem
      unfold contextFragments
      split
      · simpa using hne
      · simp
    omega
  · rw [GenerateInstructions_normal env xs h, tailText_append, toolsetFragments_eq_map,
      String.append_assoc]

theorem toolset_fragments_per_occurrence_witness :
    envUnset "DISABLE_INSTRUCTIONS" ≠ some "true" ∧
    "issues" ∈ knownToolsets ∧
    occurrences (getToolsetInstructions "issues")
      (GenerateInstructions envUnset ["issues", "x", "projects", "issues"])
        = ["issues", "x", "projects", "issues"].count "issues" :=
  ⟨by decide, by decide,
    (toolset_fragments_per_occurrence envUnset ["issues", "x", "projects", "issues"]
      (by decide)).1 "issues" (by decide)⟩

/-- C7: with bypass inactive, the output is unchanged when every element that is
neither `"context"` nor a known identifier is removed from the input; an input
made only of such elements, for instance `["unknown_toolset"]`, gives exactly
the baseline fragment. -/
theorem unknown_identifiers_ignored (env : Env) (xs : List String)
    (h : env "DISABLE_INSTRUCTIONS" ≠ some "true") :
    GenerateInstructions env xs
      = GenerateInstructions env
          (xs.filter (fun x => decide (x = "context" ∨ x ∈ knownToolsets))) ∧
    ((∀ x ∈ xs, x ≠ "context" ∧ x ∉ knownToolsets) →
      GenerateInstructions env xs = baseInstruction) ∧
    GenerateInstructions env ["unknown_toolset"] = baseInstruction := by
  have hall : ∀ ys : List String, (∀ x ∈ ys, x ≠ "context" ∧ x ∉ knownToolsets) →
      GenerateInstructions env ys = baseInstruction := by
    intro ys hys
    rw [GenerateInstructions_normal env ys h,
      contextFragments_of_not_mem (fun hc => (hys _ hc).1 rfl),
      toolsetFragments_unknown ys (fun x hx => (hys x hx).2)]
    simp [tailText]
  refine ⟨?_, hall xs, hall _ (by decide)⟩
  rw [GenerateInstructions_normal env xs h, GenerateInstructions_normal env _ h,
    toolsetFragments_filter _ xs (fun x hx => by simp [hx])]
  have hc : contextFragments
      (xs.filter (fun x => decide (x = "context" ∨ x ∈ knownToolsets))) = contextFragments xs := by
    unfold contextFragments
    simp [List.mem_filter]
  rw [hc]

theorem unknown_identifiers_ignored_witness :
    envUnset "DISABLE_INSTRUCTIONS" ≠ some "true" ∧
    GenerateInstructions envUnset ["a", "issues", "", "context", "Issues"]
      = GenerateInstructions envUnset
          (["a", "issues", "", "context", "Issues"].filter
            (fun x => decide (x = "context" ∨ x ∈ knownToolsets))) :=
  ⟨by decide,
    (unknown_identifiers_ignored envUnset ["a", "issues", "", "context", "Issues"] (by decide)).1⟩

/-- C8: for the empty input with bypass inactive, the output is exactly the
baseline fragment; it neither starts nor ends with the separator. -/
theorem empty_input_baseline (env : Env)
    (h : env "DISABLE_INSTRUCTIONS" ≠ some "true") :
    GenerateInstructions env [] = baseInstruction ∧
    ∀ r : String,
      GenerateInstructions env [] ≠ " " ++ r ∧ GenerateInstructions env [] ≠ r ++ " " := by
  have he : GenerateInstructions env [] = baseInstruction := by
    rw [GenerateInstructions_normal env [] h]
    simp [contextFragments, toolsetFragments, tailText]
  refine ⟨he, fun r => ?_⟩
  rw [he]
  constructor
  · intro e
    have hd := congrArg (fun s => s.data.head?) e
    simp only [String.data_append] at hd
    rw [baseInstruction_ends.1] at hd
    simp at hd
  · intro e
    have hd := congrArg (fun s => s.data.getLast?) e
    simp only [String.data_append] at hd
    rw [baseInstruction_ends.2] at hd
    simp at hd

theorem empty_input_baseline_witness :
    envUnset "DISABLE_INSTRUCTIONS" ≠ some "true" ∧
    GenerateInstructions envUnset [] = baseInstruction :=
  ⟨by decide, (empty_input_baseline envUnset (by decide)).1⟩

/-- C9: for the input `["context"]` with bypass inactive, the output is exactly
the baseline fragment, one space, and the core-context fragment; the hint table
has no fragment for `"context"`. -/
theorem context_only (env : Env) (h : env "DISABLE_INSTRUCTIONS" ≠ some "true") :
    GenerateInstructions env ["context"] = (baseInstruction ++ " ") ++ coreInstruction ∧
    getToolsetInstructions "context" = "" := by
  refine ⟨?_, by decide⟩
  rw [GenerateInstructions_normal env _ h, contextFragments_of_mem (by decide),
    toolsetFragments_unknown ["context"] (by decide)]
  simp [tailText, String.append_assoc]

theorem context_only_witness :
    envUnset "DISABLE_INSTRUCTIONS" ≠ some "true" ∧
    GenerateInstructions envUnset ["context"] = (baseInstruction ++ " ") ++ coreInstruction :=
  ⟨by decide, (context_only envUnset (by decide)).1⟩

/-- C10: for the input `["issues", "projects"]` with bypass inactive, the output
is exactly the baseline fragment, one space, the issues fragment, one space, and
the projects fragment, and it does not contain the core-context fragment. -/
theorem issues_projects (env : Env) (h : env "DISABLE_INSTRUCTIONS" ≠ some "true") :
    GenerateInstructions env ["issues", "projects"]
      = (((baseInstruction ++ " ") ++ issuesInstructions) ++ " ") ++ projectsInstructions ∧
    ¬ hasSubstring (GenerateInstructions env ["issues", "projects"]) coreInstruction := by
  constructor
  · have ht : toolsetFragments ["issues", "projects"]
        = [issuesInstructions, projectsInstructions] := by
      rw [toolsetFragments_eq_map]
      rfl
    rw [GenerateInstructions_normal env _ h, contextFragments_of_not_mem (by decide), ht]
    simp [tailText, String.append_assoc]
  · rw [hasSubstring_iff, occurrences_core env _ h]
    decide

theorem issues_projects_witness :
    envFlag "1" "DISABLE_INSTRUCTIONS" ≠ some "true" ∧
    GenerateInstructions (envFlag "1") ["issues", "projects"]
      = (((baseInstruction ++ " ") ++ issuesInstructions) ++ " ") ++ projectsInstructions :=
  ⟨by decide, (issues_projects (envFlag "1") (by decide)).1⟩

/-! ## Totality, determinism, frame and algebraic properties -/

/-- C12: the output is determined by the input list and the value (or absence)
of `DISABLE_INSTRUCTIONS`: two environments that agree on that variable give
the same output on the same input, whatever else they bind. -/
theorem GenerateInstructions_deterministic (env1 env2 : Env) (xs : List String)
    (h : env1 "DISABLE_INSTRUCTIONS" = env2 "DISABLE_INSTRUCTIONS") :
    GenerateInstructions env1 xs = GenerateInstructions env2 xs := by
  have hg : Getenv env1 "DISABLE_INSTRUCTIONS" = Getenv env2 "DISABLE_INSTRUCTIONS" := by
    unfold Getenv
    rw [h]
  unfold GenerateInstructions
  rw [hg]

theorem GenerateInstructions_deterministic_witness :
    envFlag "1" "DISABLE_INSTRUCTIONS" = envNoise "1" "DISABLE_INSTRUCTIONS" ∧
    envFlag "1" "PATH" ≠ envNoise "1" "PATH" ∧
    GenerateInstructions (envFlag "1") ["context", "issues"]
      = GenerateInstructions (envNoise "1") ["context", "issues"] :=
  ⟨by decide, by decide,
    GenerateInstructions_deterministic (envFlag "1") (envNoise "1") ["context", "issues"]
      (by decide)⟩

/-- C13: with the environment as explicit state, a call of `GenerateInstructions`
returns the environment unchanged, together with the result determined by its
own input and the flag value at that call; in any sequence of outside changes
and calls, deleting every call leaves the final environment the same, and the
result of each call is the one determined by its input and the flag value left
by the outside changes before it, with all earlier calls deleted; a call under
flag `"true"` returns `""` and a later call on the same input with the flag
unset returns the full, non-empty instruction string; a rejected `os.Setenv`
between a successful one and a call does not alter the flag. -/
theorem GenerateInstructions_no_memoization :
    (∀ (xs : List String) (env : Env),
      GenerateInstructionsOp xs env = (flagResult (env "DISABLE_INSTRUCTIONS") xs, env)) ∧
    (∀ (ops : List Op) (env : Env),
      (runOps ops env).2 = (runOps (ops.filter isChange) env).2) ∧
    (∀ (pre post : List Op) (xs : List String) (env : Env),
      (runOps (pre ++ Op.generate xs :: post) env).1
        = (runOps pre env).1
            ++ flagResult ((runOps (pre.filter isChange) env).2 "DISABLE_INSTRUCTIONS") xs
              :: (runOps post ((runOps (pre.filter isChange) env).2)).1) ∧
    (∀ (xs : List String) (env : Env),
      (runOps [Op.setenv "DISABLE_INSTRUCTIONS" "true", Op.generate xs,
          Op.unsetenv "DISABLE_INSTRUCTIONS", Op.generate xs] env).1
        = ["", " ".intercalate (assembledFragments xs)]
      ∧ " ".intercalate (assembledFragments xs) ≠ "") ∧
    (∀ (xs : List String) (env : Env),
      (runOps [Op.setenv "DISABLE_INSTRUCTIONS" "true",
          Op.setenv "DISABLE_INSTRUCTIONS" "x\x00y", Op.generate xs] env).1 = [""]) := by
  refine ⟨?_, ?_, ?_, ?_, ?_⟩
  · intro xs env
    rw [GenerateInstructionsOp_eq, GenerateInstructions_eq_flagResult]
  · intro ops env
    rw [runOps_snd, runOps_filter_snd]
  · intro pre post xs env
    rw [runOps_append, runOps_generate, runOps_filter_snd, GenerateInstructions_eq_flagResult]
  · intro xs env
    have h2 : Unsetenv (Setenv env "DISABLE_INSTRUCTIONS" "true") "DISABLE_INSTRUCTIONS"
        "DISABLE_INSTRUCTIONS" = none := by
      simp [Unsetenv]
    constructor
    · simp only [runOps, GenerateInstructionsOp_eq, GenerateInstructions_eq_flagResult,
        Setenv_flag_true, h2]
      simp [flagResult]
    · simp only [assembledFragments, List.singleton_append, List.cons_append, List.nil_append]
      rw [intercalate_cons]
      exact append_ne_empty baseInstruction_ne_empty _
  · intro xs env
    simp only [runOps, GenerateInstructionsOp_eq, GenerateInstructions_eq_flagResult,
      Setenv_nul_value, Setenv_flag_true]
    simp [flagResult]

/-- C14: with bypass inactive, two inputs that both contain `"context"` and are
equal after every occurrence of `"context"` is deleted give the same output. -/
theorem context_position_irrelevant (env : Env) (xs ys : List String)
    (h : env "DISABLE_INSTRUCTIONS" ≠ some "true")
    (hx : "context" ∈ xs) (hy : "context" ∈ ys)
    (hxy : xs.filter (fun x => decide (x ≠ "context"))
      = ys.filter (fun y => decide (y ≠ "context"))) :
    GenerateInstructions env xs = GenerateInstructions env ys := by
  have hq : ∀ x ∈ knownToolsets, (fun x => decide (x ≠ "context")) x = true := by decide
  rw [GenerateInstructions_normal env xs h, GenerateInstructions_normal env ys h,
    contextFragments_of_mem hx, contextFragments_of_mem hy,
    ← toolsetFragments_filter _ xs hq, ← toolsetFragments_filter _ ys hq, hxy]

theorem context_position_irrelevant_witness :
    envUnset "DISABLE_INSTRUCTIONS" ≠ some "true" ∧
    GenerateInstructions envUnset ["context", "issues", "projects"]
      = GenerateInstructions envUnset ["issues", "context", "projects", "context"] :=
  ⟨by decide,
    context_position_irrelevant envUnset ["context", "issues", "projects"]
      ["issues", "context", "projects", "context"] (by decide) (by decide) (by decide)
      (by decide)⟩

/-- C15: `getToolsetInstructions` returns a non-empty fragment exactly for
`"pull_requests"`, `"issues"`, `"discussions"` and `"projects"`, the four
fragments are pairwise distinct, and it returns the empty string for every
other string, such as `"context"`, `""`, `"Issues"` and `"issues "`. -/
theorem hint_table_closed :
    (∀ x : String, getToolsetInstructions x ≠ "" ↔ x ∈ knownToolsets) ∧
    (∀ x : String, x ∉ knownToolsets → getToolsetInstructions x = "") ∧
    (knownToolsets.map getToolsetInstructions).Nodup ∧
    getToolsetInstructions "context" = "" ∧
    getToolsetInstructions "" = "" ∧
    getToolsetInstructions "Issues" = "" ∧
    getToolsetInstructions "issues " = "" := by
  refine ⟨getToolsetInstructions_ne_empty_iff, ?_, ?_, by decide, by decide, by decide,
    by decide⟩
  · intro x hx
    by_contra hne
    exact hx ((getToolsetInstructions_ne_empty_iff x).1 hne)
  · have hn := followFragments_nodup
    have e : knownToolsets.map getToolsetInstructions = followFragments.tail := by
      simp [knownToolsets, getToolsetInstructions, followFragments]
    rw [e]
    unfold followFragments at hn ⊢
    exact (List.nodup_cons.1 hn).2

theorem hint_table_closed_witness :
    "Issues" ∉ knownToolsets ∧ getToolsetInstructions "Issues" = "" :=
  ⟨by decide, hint_table_closed.2.1 "Issues" (by decide)⟩

/-- C16: with bypass inactive, if `"context"` is a member of `xs` or is not a
member of `ys`, the output for `xs ++ ys` is the output for `xs` followed, for
every element of `ys` in order whose hint is non-empty, by one space and that
hint. -/
theorem GenerateInstructions_append (env : Env) (xs ys : List String)
    (h : env "DISABLE_INSTRUCTIONS" ≠ some "true")
    (hc : "context" ∈ xs ∨ "context" ∉ ys) :
    GenerateInstructions env (xs ++ ys) = GenerateInstructions env xs ++ appendedText ys := by
  have hctx : contextFragments (xs ++ ys) = contextFragments xs := by
    unfold contextFragments
    by_cases hx : "context" ∈ xs
    · simp [hx]
    · have hy : "context" ∉ ys := hc.resolve_left hx
      simp [hx, hy]
  rw [GenerateInstructions_normal env _ h, GenerateInstructions_normal env xs h, hctx,
    toolsetFragments_append, ← List.append_assoc, tailText_append, appendedText_eq,
    String.append_assoc]

theorem GenerateInstructions_append_witness :
    envUnset "DISABLE_INSTRUCTIONS" ≠ some "true" ∧
    ("context" ∈ ["context", "issues"] ∨ "context" ∉ ["x", "projects", "context"]) ∧
    GenerateInstructions envUnset (["context", "issues"] ++ ["x", "projects", "context"])
      = GenerateInstructions envUnset ["context", "issues"]
          ++ appendedText ["x", "projects", "context"] :=
  ⟨by decide, by decide,
    GenerateInstructions_append envUnset ["context", "issues"] ["x", "projects", "context"]
      (by decide) (by decide)⟩

end Github
